import Mathlib

/-!
Verification development for the telegram-crawler repository.

The definitions below are shallow embeddings of the Python source:
  app/core/sessions.py      (SessionManager)
  app/core/proxies.py       (ProxiesManager)
  app/services/telegram_service.py  (TelegramCrawler: worker, process_channel,
                                     message pagination, invite resolution)
  app/pipelines/telegram_crawler.py (legacy TelegramCrawler.get_channel_info)
  app/repositories/channel_repository.py (ChannelRepository.add_similar_channel)

Telethon client calls (connect, iter_messages, CheckChatInviteRequest) are
external library calls; they are modelled as explicit parameters or, where a
semantics is needed, from the interface contract stated in the spec.
-/

namespace Crawler

/-- A telethon proxy dict entry as built by ProxiesManager (addr and port fields). -/
structure Proxy where
  addr : String
  port : Nat
deriving DecidableEq, Repr

/-- Outcome of the telethon connect and authorization calls for one session,
supplied as an environment parameter (the network is external). -/
inductive ConnectOutcome where
  | connectFail
  | notAuthorized
  | ok
deriving DecidableEq, Repr

/-- State of app/core/sessions.py SessionManager.  Clients are tracked by
session name only (the dict keys); busy and banned are Python sets, modelled
as duplicate-free lists. -/
structure SessionManager where
  session_files : List String
  current_session_index : Nat
  clients : List String
  busy_sessions : List String
  banned_sessions : List String
deriving DecidableEq, Repr

/-- Python set.add: insert if not already present. -/
def setAdd (x : String) (l : List String) : List String :=
  if x ∈ l then l else x :: l

/-- SessionManager.rotate_session: advance the rotation cursor modulo the
number of session files. -/
def rotate_session (m : SessionManager) : SessionManager :=
  { m with current_session_index :=
      (m.current_session_index + 1) % m.session_files.length }

/-- SessionManager.mark_session_banned: only acts when the name has a client
entry; adds to the banned set and removes from the busy set when present. -/
def mark_session_banned (m : SessionManager) (session_name : String) : SessionManager :=
  if session_name ∈ m.clients then
    { m with
      banned_sessions := setAdd session_name m.banned_sessions,
      busy_sessions :=
        if session_name ∈ m.busy_sessions then
          m.busy_sessions.erase session_name
        else m.busy_sessions }
  else m

/-- SessionManager.get_available_session_count: total session files minus
banned sessions (Python int subtraction, hence Int). -/
def get_available_session_count (m : SessionManager) : Int :=
  (m.session_files.length : Int) - (m.banned_sessions.length : Int)

/-- SessionManager.release_client: Busy to Idle, no-op when not busy. -/
def release_client (m : SessionManager) (session_name : String) : SessionManager :=
  if session_name ∈ m.busy_sessions then
    { m with busy_sessions := m.busy_sessions.erase session_name }
  else m

/-- The uncaught exception raised inside get_client when get_random_proxy
returned None and the code evaluates proxy with a subscript. -/
inductive GetClientError where
  | proxySubscriptNone
deriving DecidableEq, Repr

/-- The scan loop of SessionManager.get_client: for each of len(session_files)
iterations, read the slot at the cursor, rotate, skip busy or banned, lazily
build and connect a client for a fresh slot (failures skip the slot but keep
the client cached), and return the first slot that reaches the busy-marking
line.  The error case carries the mutated state at raise time. -/
def get_client_loop (env : String → ConnectOutcome) (proxy : Option Proxy) :
    Nat → SessionManager → Except (GetClientError × SessionManager) (SessionManager × Option String)
  | 0, m => .ok (m, none)
  | fuel + 1, m =>
    let session_name := m.session_files.getD m.current_session_index ""
    let m1 := rotate_session m
    if session_name ∈ m1.busy_sessions ∨ session_name ∈ m1.banned_sessions then
      get_client_loop env proxy fuel m1
    else if session_name ∉ m1.clients then
      match proxy with
      | none => .error (.proxySubscriptNone, m1)
      | some _ =>
        let m2 := { m1 with clients := setAdd session_name m1.clients }
        match env session_name with
        | .connectFail => get_client_loop env proxy fuel m2
        | .notAuthorized => get_client_loop env proxy fuel m2
        | .ok =>
          .ok ({ m2 with busy_sessions := setAdd session_name m2.busy_sessions },
               some session_name)
    else
      .ok ({ m1 with busy_sessions := setAdd session_name m1.busy_sessions },
           some session_name)

/-- SessionManager.get_client: early None when banned count reaches the file
count, otherwise the rotating scan over all slots. -/
def get_client (env : String → ConnectOutcome) (proxy : Option Proxy) (m : SessionManager) :
    Except (GetClientError × SessionManager) (SessionManager × Option String) :=
  if m.session_files.length ≤ m.banned_sessions.length then .ok (m, none)
  else get_client_loop env proxy m.session_files.length m

/-- State of app/core/proxies.py ProxiesManager: the cached proxy list. -/
structure ProxiesManager where
  proxies : List Proxy
deriving DecidableEq, Repr

/-- ProxiesManager.get_random_proxy: refetch when the cache is empty (the
fetch result is an external input), return None when still empty, otherwise a
random choice (the random index is an external input). -/
def get_random_proxy (fetched : List Proxy) (choice : Nat) (pm : ProxiesManager) :
    ProxiesManager × Option Proxy :=
  let pm1 := if pm.proxies.isEmpty then { pm with proxies := fetched } else pm
  if pm1.proxies.isEmpty then (pm1, none)
  else (pm1, pm1.proxies.get? (choice % pm1.proxies.length))

@[simp]
theorem rotate_session_busy (m : SessionManager) :
    (rotate_session m).busy_sessions = m.busy_sessions := rfl

@[simp]
theorem rotate_session_banned (m : SessionManager) :
    (rotate_session m).banned_sessions = m.banned_sessions := rfl

@[simp]
theorem rotate_session_files (m : SessionManager) :
    (rotate_session m).session_files = m.session_files := rfl

@[simp]
theorem rotate_session_clients (m : SessionManager) :
    (rotate_session m).clients = m.clients := rfl

/-- The scan loop never mutates the banned set or the file list, leaves the
busy set untouched when it returns None, and when it returns a session name s,
s was neither busy nor banned on entry and the busy set gains exactly s. -/
theorem get_client_loop_ok (env : String → ConnectOutcome) (proxy : Option Proxy) :
    ∀ (fuel : Nat) (m m' : SessionManager) (os : Option String),
      get_client_loop env proxy fuel m = .ok (m', os) →
      m'.banned_sessions = m.banned_sessions ∧
      m'.session_files = m.session_files ∧
      (os = none → m'.busy_sessions = m.busy_sessions) ∧
      (∀ s, os = some s → s ∉ m.busy_sessions ∧ s ∉ m.banned_sessions ∧
        m'.busy_sessions = s :: m.busy_sessions) := by
  intro fuel
  induction fuel with
  | zero =>
    intro m m' os h
    simp only [get_client_loop, Except.ok.injEq, Prod.mk.injEq] at h
    obtain ⟨rfl, rfl⟩ := h
    refine ⟨rfl, rfl, fun _ => rfl, fun s hs => by cases hs⟩
  | succ n ih =>
    intro m m' os h
    simp only [get_client_loop] at h
    split at h
    · rename_i hbb
      have := ih (rotate_session m) m' os h
      simpa using this
    · rename_i hbb
      rw [not_or] at hbb
      obtain ⟨hbusy, hban⟩ := hbb
      split at h
      · rename_i hcl
        split at h
        · cases h
        · split at h
          · have := ih _ m' os h
            simpa using this
          · have := ih _ m' os h
            simpa using this
          · simp only [Except.ok.injEq, Prod.mk.injEq] at h
            obtain ⟨rfl, rfl⟩ := h
            refine ⟨rfl, rfl, ?_, ?_⟩
            · intro hno
              exact Option.noConfusion hno
            · intro s hs
              obtain rfl := Option.some.inj hs
              simp only [rotate_session_busy, rotate_session_banned] at hbusy hban
              refine ⟨hbusy, hban, ?_⟩
              simp only [setAdd, rotate_session_busy, if_neg hbusy]
      · rename_i hcl
        simp only [Except.ok.injEq, Prod.mk.injEq] at h
        obtain ⟨rfl, rfl⟩ := h
        refine ⟨rfl, rfl, ?_, ?_⟩
        · intro hno
          exact Option.noConfusion hno
        · intro s hs
          obtain rfl := Option.some.inj hs
          simp only [rotate_session_busy, rotate_session_banned] at hbusy hban
          refine ⟨hbusy, hban, ?_⟩
          simp only [setAdd, rotate_session_busy, if_neg hbusy]

/-- The error exit of the scan loop (the proxy subscript raise) leaves the
busy set, the banned set and the file list unchanged. -/
theorem get_client_loop_error (env : String → ConnectOutcome) (proxy : Option Proxy) :
    ∀ (fuel : Nat) (m m' : SessionManager) (e : GetClientError),
      get_client_loop env proxy fuel m = .error (e, m') →
      m'.banned_sessions = m.banned_sessions ∧
      m'.session_files = m.session_files ∧
      m'.busy_sessions = m.busy_sessions := by
  intro fuel
  induction fuel with
  | zero =>
    intro m m' e h
    simp only [get_client_loop] at h
    exact Except.noConfusion h
  | succ n ih =>
    intro m m' e h
    simp only [get_client_loop] at h
    split at h
    · have := ih (rotate_session m) m' e h
      simpa using this
    · split at h
      · split at h
        · simp only [Except.error.injEq, Prod.mk.injEq] at h
          obtain ⟨-, rfl⟩ := h
          exact ⟨rfl, rfl, rfl⟩
        · split at h
          · have := ih _ m' e h
            simpa using this
          · have := ih _ m' e h
            simpa using this
          · cases h
      · cases h

/-- get_client at the wrapper level: a returned session name was not busy and
not banned beforehand, it is busy afterwards, and the banned set and file list
are unchanged. -/
theorem get_client_ok_some (env : String → ConnectOutcome) (proxy : Option Proxy)
    (m m' : SessionManager) (s : String)
    (h : get_client env proxy m = .ok (m', some s)) :
    s ∉ m.busy_sessions ∧ s ∉ m.banned_sessions ∧
    m'.busy_sessions = s :: m.busy_sessions ∧
    m'.banned_sessions = m.banned_sessions ∧
    m'.session_files = m.session_files := by
  unfold get_client at h
  split at h
  · simp only [Except.ok.injEq, Prod.mk.injEq] at h
    exact absurd h.2 (by simp)
  · have hspec := get_client_loop_ok env proxy m.session_files.length m m' (some s) h
    obtain ⟨hban, hfiles, _, hsome⟩ := hspec
    obtain ⟨h1, h2, h3⟩ := hsome s rfl
    exact ⟨h1, h2, h3, hban, hfiles⟩

/-- get_client never mutates the banned set, whatever it returns. -/
theorem get_client_banned_invariant (env : String → ConnectOutcome) (proxy : Option Proxy)
    (m : SessionManager) :
    (∀ m' os, get_client env proxy m = .ok (m', os) →
      m'.banned_sessions = m.banned_sessions) ∧
    (∀ e m', get_client env proxy m = .error (e, m') →
      m'.banned_sessions = m.banned_sessions) := by
  constructor
  · intro m' os h
    unfold get_client at h
    split at h
    · simp only [Except.ok.injEq, Prod.mk.injEq] at h
      rw [← h.1]
    · exact (get_client_loop_ok env proxy _ m m' os h).1
  · intro e m' h
    unfold get_client at h
    split at h
    · cases h
    · exact (get_client_loop_error env proxy _ m m' e h).1

/-- One client call against the SessionManager: acquire (get_client with its
external connect environment and current proxy), release (release_client) or
markBanned (mark_session_banned). -/
inductive PoolOp where
  | acquire (env : String → ConnectOutcome) (proxy : Option Proxy)
  | release (name : String)
  | markBanned (name : String)

/-- A pool configuration: the manager state plus the multiset of session
names currently held by callers (a caller holds a name from the moment an
acquire returns it until release_client or mark_session_banned drops it from
the busy set). -/
structure PoolConfig where
  mgr : SessionManager
  holders : List String

/-- Apply one operation.  An acquire that returns a session pushes it onto
the holder list; release and markBanned drop the name exactly when the
corresponding SessionManager call removes it from the busy set. -/
def applyOp (c : PoolConfig) : PoolOp → PoolConfig
  | .acquire env proxy =>
    match get_client env proxy c.mgr with
    | .ok (m', some s) => ⟨m', s :: c.holders⟩
    | .ok (m', none) => ⟨m', c.holders⟩
    | .error (_, m') => ⟨m', c.holders⟩
  | .release name => ⟨release_client c.mgr name, c.holders.erase name⟩
  | .markBanned name =>
    ⟨mark_session_banned c.mgr name,
     if name ∈ c.mgr.clients ∧ name ∈ c.mgr.busy_sessions then c.holders.erase name
     else c.holders⟩

/-- Run a sequence of operations. -/
def runOps (c : PoolConfig) : List PoolOp → PoolConfig
  | [] => c
  | op :: ops => runOps (applyOp c op) ops

/-- The manager as built by SessionManager.__init__ (session files discovered
on disk, everything else empty). -/
def initMgr (files : List String) : SessionManager :=
  ⟨files, 0, [], [], []⟩

/-- The mutual-exclusion invariant: the held names are exactly the busy set,
and the busy set has no duplicates. -/
def PoolInv (c : PoolConfig) : Prop :=
  c.holders = c.mgr.busy_sessions ∧ c.mgr.busy_sessions.Nodup

theorem applyOp_preserves_inv (c : PoolConfig) (op : PoolOp) (hinv : PoolInv c) :
    PoolInv (applyOp c op) := by
  obtain ⟨heq, hnd⟩ := hinv
  cases op with
  | acquire env proxy =>
    simp only [applyOp]
    rcases hres : get_client env proxy c.mgr with ⟨e, m'⟩ | ⟨m', os⟩
    · simp only [hres]
      have hb := (get_client_banned_invariant env proxy c.mgr).2 e m' hres
      have := get_client_loop_error env proxy c.mgr.session_files.length c.mgr m' e
      unfold get_client at hres
      split at hres
      · exact absurd hres (by simp)
      · have hbusy := (get_client_loop_error env proxy _ c.mgr m' e hres).2.2
        exact ⟨heq.trans hbusy.symm, hbusy ▸ hnd⟩
    · cases os with
      | none =>
        simp only [hres]
        unfold get_client at hres
        split at hres
        · simp only [Except.ok.injEq, Prod.mk.injEq] at hres
          obtain ⟨rfl, -⟩ := hres
          exact ⟨heq, hnd⟩
        · have hbusy := ((get_client_loop_ok env proxy _ c.mgr m' none hres).2.2.1) rfl
          exact ⟨heq.trans hbusy.symm, hbusy ▸ hnd⟩
      | some s =>
        simp only [hres]
        have hspec := get_client_ok_some env proxy c.mgr m' s hres
        obtain ⟨hnotbusy, -, hbusy, -, -⟩ := hspec
        constructor
        · rw [hbusy, heq]
        · rw [hbusy]
          exact List.nodup_cons.mpr ⟨hnotbusy, hnd⟩
  | release name =>
    simp only [applyOp, release_client]
    split
    · exact ⟨by rw [heq], hnd.erase name⟩
    · rename_i hmem
      constructor
      · rw [List.erase_of_not_mem (heq ▸ hmem), heq]
      · exact hnd
  | markBanned name =>
    simp only [applyOp, mark_session_banned, PoolInv]
    by_cases hcl : name ∈ c.mgr.clients
    · by_cases hbusy : name ∈ c.mgr.busy_sessions
      · have hand : name ∈ c.mgr.clients ∧ name ∈ c.mgr.busy_sessions := ⟨hcl, hbusy⟩
        simp only [if_pos hcl, if_pos hbusy, if_pos hand]
        exact ⟨by rw [heq], hnd.erase name⟩
      · have hand : ¬(name ∈ c.mgr.clients ∧ name ∈ c.mgr.busy_sessions) :=
          fun hc => hbusy hc.2
        simp only [if_pos hcl, if_neg hbusy, if_neg hand]
        exact ⟨heq, hnd⟩
    · have hand : ¬(name ∈ c.mgr.clients ∧ name ∈ c.mgr.busy_sessions) :=
        fun hc => hcl hc.1
      simp only [if_neg hcl, if_neg hand]
      exact ⟨heq, hnd⟩

theorem runOps_preserves_inv (ops : List PoolOp) :
    ∀ c : PoolConfig, PoolInv c → PoolInv (runOps c ops) := by
  induction ops with
  | nil => intro c h; exact h
  | cons op ops ih =>
    intro c h
    exact ih (applyOp c op) (applyOp_preserves_inv c op h)

theorem runOps_inv_init (files : List String) (ops : List PoolOp) :
    PoolInv (runOps ⟨initMgr files, []⟩ ops) :=
  runOps_preserves_inv ops ⟨initMgr files, []⟩ ⟨rfl, List.nodup_nil⟩

/-- No pool operation ever removes a name from the banned set. -/
theorem applyOp_banned_mono (c : PoolConfig) (op : PoolOp) (s : String)
    (h : s ∈ c.mgr.banned_sessions) : s ∈ (applyOp c op).mgr.banned_sessions := by
  cases op with
  | acquire env proxy =>
    simp only [applyOp]
    rcases hres : get_client env proxy c.mgr with ⟨e, m'⟩ | ⟨m', os⟩
    · simp only [hres]
      rw [(get_client_banned_invariant env proxy c.mgr).2 e m' hres]
      exact h
    · cases os with
      | none =>
        simp only [hres]
        rw [(get_client_banned_invariant env proxy c.mgr).1 m' none hres]
        exact h
      | some r =>
        simp only [hres]
        rw [(get_client_banned_invariant env proxy c.mgr).1 m' (some r) hres]
        exact h
  | release name =>
    simp only [applyOp, release_client]
    split <;> exact h
  | markBanned name =>
    simp only [applyOp, mark_session_banned]
    split
    · simp only [setAdd]
      split
      · exact h
      · exact List.mem_cons_of_mem name h
    · exact h

theorem runOps_banned_mono (ops : List PoolOp) :
    ∀ (c : PoolConfig) (s : String), s ∈ c.mgr.banned_sessions →
      s ∈ (runOps c ops).mgr.banned_sessions := by
  induction ops with
  | nil => intro c s h; exact h
  | cons op ops ih =>
    intro c s h
    exact ih (applyOp c op) s (applyOp_banned_mono c op s h)

/-- C1: For every sequence of acquire, release and markBanned operations on a
freshly constructed SessionManager, the holder multiset never carries a
session name more than once (each session has at most one Busy holder), every
session returned by an acquire sits in the busy set afterwards, and while a
session s is in the busy set no acquire can return s again (it is excluded
until release_client or mark_session_banned removes it from the busy set). -/
theorem acquire_mutual_exclusion (files : List String) (ops : List PoolOp)
    (s : String) (env : String → ConnectOutcome) (proxy : Option Proxy)
    (m' : SessionManager) (r : String)
    (hbusy : s ∈ (runOps ⟨initMgr files, []⟩ ops).mgr.busy_sessions)
    (hacq : get_client env proxy (runOps ⟨initMgr files, []⟩ ops).mgr
      = .ok (m', some r)) :
    (runOps ⟨initMgr files, []⟩ ops).holders.count s ≤ 1 ∧
    r ∈ m'.busy_sessions ∧ r ≠ s := by
  obtain ⟨heq, hnd⟩ := runOps_inv_init files ops
  obtain ⟨hrnb, -, hbusy', -, -⟩ := get_client_ok_some env proxy _ m' r hacq
  refine ⟨?_, ?_, ?_⟩
  · rw [heq]
    exact List.nodup_iff_count_le_one.mp hnd s
  · rw [hbusy']
    exact List.mem_cons_self r _
  · rintro rfl
    exact hrnb hbusy

/-- Connect environment used in the concrete witness scenarios: every
connect and authorization succeeds. -/
def wEnv : String → ConnectOutcome := fun _ => .ok

/-- A concrete proxy for the witness scenarios. -/
def wP : Proxy := ⟨"p", 1⟩

/-- Witness scenario for mutual exclusion: one acquire on a two-session pool
takes session a; a second acquire then returns b, not the busy a. -/
theorem acquire_mutual_exclusion_witness :
    (runOps ⟨initMgr ["a", "b"], []⟩ [PoolOp.acquire wEnv (some wP)]).holders.count "a" ≤ 1 ∧
    "b" ∈ (SessionManager.mk ["a", "b"] 0 ["b", "a"] ["b", "a"] []).busy_sessions ∧
    "b" ≠ "a" :=
  acquire_mutual_exclusion ["a", "b"] [PoolOp.acquire wEnv (some wP)] "a" wEnv (some wP)
    (SessionManager.mk ["a", "b"] 0 ["b", "a"] ["b", "a"] []) "b"
    (by decide) rfl

/-- C4 amended: for a session s that has a client entry and is not yet
banned, mark_session_banned puts s in the banned set, removes it from the
busy set, makes get_available_session_count decrease by exactly one, keeps s
banned across every later operation sequence, and no later acquire ever
returns s. -/
theorem mark_banned_effects (m : SessionManager) (s : String)
    (hc : s ∈ m.clients) (hb : s ∉ m.banned_sessions)
    (hnd : m.busy_sessions.Nodup) :
    s ∈ (mark_session_banned m s).banned_sessions ∧
    s ∉ (mark_session_banned m s).busy_sessions ∧
    get_available_session_count (mark_session_banned m s)
      = get_available_session_count m - 1 ∧
    (∀ ops : List PoolOp,
      s ∈ (runOps ⟨mark_session_banned m s, []⟩ ops).mgr.banned_sessions) ∧
    (∀ (ops : List PoolOp) (env : String → ConnectOutcome) (proxy : Option Proxy)
       (m' : SessionManager) (r : String),
      get_client env proxy (runOps ⟨mark_session_banned m s, []⟩ ops).mgr
        = .ok (m', some r) → r ≠ s) := by
  have hbanned : s ∈ (mark_session_banned m s).banned_sessions := by
    simp only [mark_session_banned, if_pos hc, setAdd, if_neg hb]
    exact List.mem_cons_self s _
  have hperm : ∀ ops : List PoolOp,
      s ∈ (runOps ⟨mark_session_banned m s, []⟩ ops).mgr.banned_sessions :=
    fun ops => runOps_banned_mono ops ⟨mark_session_banned m s, []⟩ s hbanned
  refine ⟨hbanned, ?_, ?_, hperm, ?_⟩
  · simp only [mark_session_banned, if_pos hc]
    by_cases hbusy : s ∈ m.busy_sessions
    · simp only [if_pos hbusy]
      exact hnd.not_mem_erase
    · simp only [if_neg hbusy]
      exact hbusy
  · simp only [mark_session_banned, get_available_session_count, if_pos hc, setAdd,
      if_neg hb, List.length_cons]
    push_cast
    ring
  · intro ops env proxy m' r hacq
    obtain ⟨-, hrnb, -, -, -⟩ := get_client_ok_some env proxy _ m' r hacq
    rintro rfl
    exact hrnb (hperm ops)

/-- Counterexample for C4 as stated: on a never-connected session the call is
a no-op (the session is not banned and the available count does not drop),
and on an already banned session the available count does not drop either. -/
theorem mark_banned_cex :
    mark_session_banned (SessionManager.mk ["a"] 0 [] [] []) "a"
      = SessionManager.mk ["a"] 0 [] [] [] ∧
    "a" ∉ (mark_session_banned (SessionManager.mk ["a"] 0 [] [] []) "a").banned_sessions ∧
    get_available_session_count
        (mark_session_banned (SessionManager.mk ["a"] 0 [] [] []) "a")
      = get_available_session_count (SessionManager.mk ["a"] 0 [] [] []) ∧
    get_available_session_count
        (mark_session_banned (SessionManager.mk ["a"] 0 ["a"] [] ["a"]) "a")
      = get_available_session_count (SessionManager.mk ["a"] 0 ["a"] [] ["a"]) := by
  refine ⟨rfl, by decide, rfl, rfl⟩

/-- Witness for the amended C4 on a concrete two-session pool with session a
connected and busy. -/
theorem mark_banned_effects_witness :
    "a" ∈ (mark_session_banned (SessionManager.mk ["a", "b"] 0 ["a"] ["a"] []) "a").banned_sessions ∧
    "a" ∉ (mark_session_banned (SessionManager.mk ["a", "b"] 0 ["a"] ["a"] []) "a").busy_sessions ∧
    get_available_session_count
        (mark_session_banned (SessionManager.mk ["a", "b"] 0 ["a"] ["a"] []) "a")
      = get_available_session_count (SessionManager.mk ["a", "b"] 0 ["a"] ["a"] []) - 1 ∧
    (∀ ops : List PoolOp,
      "a" ∈ (runOps ⟨mark_session_banned (SessionManager.mk ["a", "b"] 0 ["a"] ["a"] []) "a", []⟩
        ops).mgr.banned_sessions) ∧
    (∀ (ops : List PoolOp) (env : String → ConnectOutcome) (proxy : Option Proxy)
       (m' : SessionManager) (r : String),
      get_client env proxy
          (runOps ⟨mark_session_banned (SessionManager.mk ["a", "b"] 0 ["a"] ["a"] []) "a", []⟩
            ops).mgr = .ok (m', some r) → r ≠ "a") :=
  mark_banned_effects (SessionManager.mk ["a", "b"] 0 ["a"] ["a"] []) "a"
    (by decide) (by decide) (by decide)

/-- One scan iteration of get_client passes over a slot exactly when it is
busy, banned, or untried with a failing connect or authorization. -/
def skipped (m : SessionManager) (env : String → ConnectOutcome) (name : String) : Prop :=
  name ∈ m.busy_sessions ∨ name ∈ m.banned_sessions ∨
    (name ∉ m.clients ∧ env name ≠ ConnectOutcome.ok)

theorem getD_of_lt (F : List String) (i : Nat) (h : i < F.length) :
    F.getD i "" = F.get ⟨i, h⟩ := by
  simp [List.getD_eq_getElem?_getD, List.getElem?_eq_getElem h]

theorem add_mod_ne_self (idx j n : Nat) (hidx : idx < n) (hj0 : 0 < j)
    (hjn : j < n) : (idx + j) % n ≠ idx := by
  intro h
  rcases Nat.lt_or_ge (idx + j) n with hlt | hge
  · rw [Nat.mod_eq_of_lt hlt] at h
    omega
  · have h2 : idx + j - n < n := by omega
    rw [Nat.mod_eq_sub_mod hge, Nat.mod_eq_of_lt h2] at h
    omega

theorem forall_lt_succ_iff (P : Nat → Prop) (n : Nat) :
    (∀ k < n + 1, P k) ↔ P 0 ∧ ∀ k < n, P (k + 1) := by
  constructor
  · intro h
    exact ⟨h 0 (Nat.succ_pos n), fun k hk => h (k + 1) (Nat.succ_lt_succ hk)⟩
  · rintro ⟨h0, hs⟩ k hk
    cases k with
    | zero => exact h0
    | succ k => exact hs k (Nat.lt_of_succ_lt_succ hk)

/-- Step case of the None characterization for a fresh slot whose connect or
authorization fails: the loop proceeds with the slot cached in clients, and
the remaining scan decides the result. -/
theorem get_client_loop_none_iff_fresh (env : String → ConnectOutcome) (p : Proxy)
    (n : Nat) (m : SessionManager) (hnd : m.session_files.Nodup)
    (hidx : m.current_session_index < m.session_files.length)
    (hfuel : n + 1 ≤ m.session_files.length)
    (hcl : m.session_files.getD m.current_session_index "" ∉ m.clients)
    (hfail : env (m.session_files.getD m.current_session_index "") ≠ ConnectOutcome.ok)
    (ihm : ∀ (m2 : SessionManager), m2.session_files.Nodup →
      m2.current_session_index < m2.session_files.length →
      n ≤ m2.session_files.length →
      ((∃ m', get_client_loop env (some p) n m2 = .ok (m', none)) ↔
        ∀ k < n, skipped m2 env
          (m2.session_files.getD
            ((m2.current_session_index + k) % m2.session_files.length) ""))) :
    ((∃ m', get_client_loop env (some p) n
        { rotate_session m with
          clients := setAdd (m.session_files.getD m.current_session_index "")
            (rotate_session m).clients } = .ok (m', none)) ↔
      ∀ k < n + 1, skipped m env
        (m.session_files.getD
          ((m.current_session_index + k) % m.session_files.length) "")) := by
  have hn : 0 < m.session_files.length := Nat.lt_of_le_of_lt (Nat.zero_le _) hidx
  have hidx0 : (m.current_session_index + 0) % m.session_files.length
      = m.current_session_index := by
    rw [Nat.add_zero, Nat.mod_eq_of_lt hidx]
  have hshift : ∀ k : Nat,
      ((m.current_session_index + 1) % m.session_files.length + k)
          % m.session_files.length
        = (m.current_session_index + (k + 1)) % m.session_files.length := by
    intro k
    rw [Nat.mod_add_mod]
    congr 1
    omega
  have hIH := ihm
    { rotate_session m with
      clients := setAdd (m.session_files.getD m.current_session_index "")
        (rotate_session m).clients }
    hnd
    (show (m.current_session_index + 1) % m.session_files.length
        < m.session_files.length from Nat.mod_lt _ hn)
    (show n ≤ m.session_files.length by omega)
  rw [hIH, forall_lt_succ_iff]
  have hP0 : skipped m env
      (m.session_files.getD
        ((m.current_session_index + 0) % m.session_files.length) "") := by
    rw [hidx0]
    exact Or.inr (Or.inr ⟨hcl, hfail⟩)
  have hskip_iff : ∀ k < n, (skipped
      { rotate_session m with
        clients := setAdd (m.session_files.getD m.current_session_index "")
          (rotate_session m).clients } env
      (m.session_files.getD
        ((m.current_session_index + (k + 1)) % m.session_files.length) "")
    ↔ skipped m env
      (m.session_files.getD
        ((m.current_session_index + (k + 1)) % m.session_files.length) "")) := by
    intro k hk
    have hij : (m.current_session_index + (k + 1)) % m.session_files.length
        ≠ m.current_session_index :=
      add_mod_ne_self _ _ _ hidx (Nat.succ_pos k) (by omega)
    have hlt : (m.current_session_index + (k + 1)) % m.session_files.length
        < m.session_files.length := Nat.mod_lt _ hn
    have hne : m.session_files.getD
        ((m.current_session_index + (k + 1)) % m.session_files.length) ""
        ≠ m.session_files.getD m.current_session_index "" := by
      rw [getD_of_lt _ _ hlt, getD_of_lt _ _ hidx]
      intro hcontr
      exact hij (congrArg Fin.val (hnd.get_inj_iff.mp hcontr))
    simp only [skipped, rotate_session_busy, rotate_session_banned,
      rotate_session_clients, setAdd]
    constructor
    · rintro (h | h | ⟨h1, h2⟩)
      · exact Or.inl h
      · exact Or.inr (Or.inl h)
      · refine Or.inr (Or.inr ⟨fun hc => h1 ?_, h2⟩)
        split
        · exact hc
        · exact List.mem_cons_of_mem _ hc
    · rintro (h | h | ⟨h1, h2⟩)
      · exact Or.inl h
      · exact Or.inr (Or.inl h)
      · refine Or.inr (Or.inr ⟨fun hc => ?_, h2⟩)
        revert hc
        split
        · exact h1
        · intro hc
          rcases List.mem_cons.mp hc with hc | hc
          · exact (hne hc).elim
          · exact h1 hc
  constructor
  · intro h
    refine ⟨hP0, fun k hk => ?_⟩
    have h1 := h k hk
    have h2 : skipped
        { rotate_session m with
          clients := setAdd (m.session_files.getD m.current_session_index "")
            (rotate_session m).clients } env
        (m.session_files.getD
          (((m.current_session_index + 1) % m.session_files.length + k)
            % m.session_files.length) "") := h1
    rw [hshift k] at h2
    exact (hskip_iff k hk).mp h2
  · rintro ⟨-, hs⟩ k hk
    have h2 : skipped
        { rotate_session m with
          clients := setAdd (m.session_files.getD m.current_session_index "")
            (rotate_session m).clients } env
        (m.session_files.getD
          (((m.current_session_index + 1) % m.session_files.length + k)
            % m.session_files.length) "") := by
      rw [hshift k]
      exact (hskip_iff k hk).mpr (hs k hk)
    exact h2

/-- The scan loop returns None exactly when every one of the next fuel slots
in rotation order is skipped (busy, banned, or untried and failing), for any
fuel within one full rotation over duplicate-free session files. -/
theorem get_client_loop_none_iff (env : String → ConnectOutcome) (p : Proxy) :
    ∀ (fuel : Nat) (m : SessionManager), m.session_files.Nodup →
      m.current_session_index < m.session_files.length →
      fuel ≤ m.session_files.length →
      ((∃ m', get_client_loop env (some p) fuel m = .ok (m', none)) ↔
        ∀ k < fuel, skipped m env
          (m.session_files.getD
            ((m.current_session_index + k) % m.session_files.length) "")) := by
  intro fuel
  induction fuel with
  | zero =>
    intro m hnd hidx hfuel
    simp only [get_client_loop]
    constructor
    · intro _ k hk
      exact absurd hk (Nat.not_lt_zero k)
    · intro _
      exact ⟨m, rfl⟩
  | succ n ih =>
    intro m hnd hidx hfuel
    have hn : 0 < m.session_files.length := Nat.lt_of_le_of_lt (Nat.zero_le _) hidx
    have hidx0 : (m.current_session_index + 0) % m.session_files.length
        = m.current_session_index := by
      rw [Nat.add_zero, Nat.mod_eq_of_lt hidx]
    have hshift : ∀ k : Nat,
        ((m.current_session_index + 1) % m.session_files.length + k)
            % m.session_files.length
          = (m.current_session_index + (k + 1)) % m.session_files.length := by
      intro k
      rw [Nat.mod_add_mod]
      congr 1
      omega
    have hrot_idx : (rotate_session m).current_session_index
        = (m.current_session_index + 1) % m.session_files.length := rfl
    simp only [get_client_loop]
    by_cases hbb : m.session_files.getD m.current_session_index ""
        ∈ (rotate_session m).busy_sessions ∨
        m.session_files.getD m.current_session_index ""
        ∈ (rotate_session m).banned_sessions
    · rw [if_pos hbb]
      rw [ih (rotate_session m) hnd
        (by rw [hrot_idx, rotate_session_files]; exact Nat.mod_lt _ hn)
        (by rw [rotate_session_files]; omega)]
      simp only [rotate_session_files, hrot_idx]
      rw [forall_lt_succ_iff]
      have hP0 : skipped m env
          (m.session_files.getD
            ((m.current_session_index + 0) % m.session_files.length) "") := by
        rw [hidx0]
        rcases hbb with h | h
        · exact Or.inl (by simpa using h)
        · exact Or.inr (Or.inl (by simpa using h))
      constructor
      · intro h
        refine ⟨hP0, fun k hk => ?_⟩
        have := h k hk
        rw [hshift k] at this
        exact this
      · rintro ⟨-, hs⟩ k hk
        rw [hshift k]
        exact hs k hk
    · rw [if_neg hbb]
      rw [not_or] at hbb
      obtain ⟨hbusy, hban⟩ := hbb
      simp only [rotate_session_busy, rotate_session_banned] at hbusy hban
      by_cases hcl : m.session_files.getD m.current_session_index ""
          ∈ m.clients
      · have hnotnot : ¬ (m.session_files.getD m.current_session_index ""
            ∉ (rotate_session m).clients) := by
          rw [rotate_session_clients]
          exact not_not_intro hcl
        rw [if_neg hnotnot]
        constructor
        · rintro ⟨m', hm'⟩
          simp only [Except.ok.injEq, Prod.mk.injEq] at hm'
          exact Option.noConfusion hm'.2
        · intro h
          have h0 := h 0 (Nat.succ_pos n)
          rw [hidx0] at h0
          rcases h0 with h0 | h0 | h0
          · exact (hbusy h0).elim
          · exact (hban h0).elim
          · exact (h0.1 hcl).elim
      · have hnot : m.session_files.getD m.current_session_index ""
            ∉ (rotate_session m).clients := by
          rw [rotate_session_clients]
          exact hcl
        rw [if_pos hnot]
        cases henv : env (m.session_files.getD m.current_session_index "") with
        | ok =>
          simp only [henv]
          constructor
          · rintro ⟨m', hm'⟩
            simp only [Except.ok.injEq, Prod.mk.injEq] at hm'
            exact Option.noConfusion hm'.2
          · intro h
            have h0 := h 0 (Nat.succ_pos n)
            rw [hidx0] at h0
            rcases h0 with h0 | h0 | h0
            · exact (hbusy h0).elim
            · exact (hban h0).elim
            · exact (h0.2 henv).elim
        | connectFail =>
          simp only [henv]
          exact get_client_loop_none_iff_fresh env p n m hnd hidx hfuel hcl
            (by rw [henv]; intro hc; cases hc) ih
        | notAuthorized =>
          simp only [henv]
          exact get_client_loop_none_iff_fresh env p n m hnd hidx hfuel hcl
            (by rw [henv]; intro hc; cases hc) ih

/-- C3 amended: with a usable proxy, get_client returns None exactly when all
slots are banned (early exit), or when every session file is passed over by
the scan: busy, banned, or untried with a failing connect or authorization
during this call. -/
theorem get_client_none_iff (env : String → ConnectOutcome) (p : Proxy)
    (m : SessionManager) (hnd : m.session_files.Nodup)
    (hidx : m.current_session_index < m.session_files.length) :
    ((∃ m', get_client env (some p) m = .ok (m', none)) ↔
      m.session_files.length ≤ m.banned_sessions.length ∨
      ∀ name ∈ m.session_files, skipped m env name) := by
  unfold get_client
  by_cases hle : m.session_files.length ≤ m.banned_sessions.length
  · rw [if_pos hle]
    constructor
    · intro _
      exact Or.inl hle
    · intro _
      exact ⟨m, rfl⟩
  · rw [if_neg hle]
    have hn : 0 < m.session_files.length := Nat.lt_of_le_of_lt (Nat.zero_le _) hidx
    rw [get_client_loop_none_iff env p m.session_files.length m hnd hidx (le_refl _)]
    have hkey : ∀ j < m.session_files.length, ∃ k < m.session_files.length,
        (m.current_session_index + k) % m.session_files.length = j := by
      intro j hj
      refine ⟨(m.session_files.length + j - m.current_session_index)
          % m.session_files.length, Nat.mod_lt _ hn, ?_⟩
      rw [Nat.add_mod_mod]
      have harith : m.current_session_index
          + (m.session_files.length + j - m.current_session_index)
          = m.session_files.length + j := by omega
      rw [harith, Nat.add_mod_left, Nat.mod_eq_of_lt hj]
    constructor
    · intro h
      refine Or.inr ?_
      intro name hname
      obtain ⟨⟨j, hj⟩, hget⟩ := List.mem_iff_get.mp hname
      obtain ⟨k, hkN, hkj⟩ := hkey j hj
      have hk := h k hkN
      rw [hkj, getD_of_lt _ _ hj, hget] at hk
      exact hk
    · intro h k hk
      rcases h with h | h
      · exact absurd h hle
      · have hlt : (m.current_session_index + k) % m.session_files.length
            < m.session_files.length := Nat.mod_lt _ hn
        rw [getD_of_lt _ _ hlt]
        exact h _ (List.get_mem _ _ _)

/-- C3 counterexample: a single-session pool whose only session is busy and
not banned makes get_client return None, refuting that None occurs only when
every slot is Banned. -/
theorem get_client_none_cex :
    get_client wEnv (some wP) (SessionManager.mk ["a"] 0 ["a"] ["a"] [])
      = .ok (SessionManager.mk ["a"] 0 ["a"] ["a"] [], none) ∧
    (SessionManager.mk ["a"] 0 ["a"] ["a"] []).banned_sessions.length
      < (SessionManager.mk ["a"] 0 ["a"] ["a"] []).session_files.length :=
  ⟨rfl, by decide⟩

/-- Witness for the amended C3: a pool with one busy slot and one slot whose
connect fails returns None from get_client although no slot is banned. -/
theorem get_client_none_iff_witness :
    ∃ m', get_client (fun _ => ConnectOutcome.connectFail) (some wP)
      (SessionManager.mk ["a", "b"] 0 [] ["a"] []) = .ok (m', none) :=
  (get_client_none_iff (fun _ => ConnectOutcome.connectFail) wP
      (SessionManager.mk ["a", "b"] 0 [] ["a"] []) (by decide) (by decide)).mpr
    (Or.inr (by
      intro name hname
      simp only [List.mem_cons, List.mem_singleton] at hname
      rcases hname with rfl | rfl | hname
      · simp only [skipped]
        decide
      · simp only [skipped]
        decide
      · exact absurd hname (List.not_mem_nil name)))

/-- C10: when the proxy cache is empty and refetching also yields nothing,
get_random_proxy returns None; get_client on a fresh manager (no clients, no
busy, no banned slots) then hits the None subscript and raises the uncaught
error out of acquire instead of connecting without a proxy or skipping the
slot. -/
theorem acquire_no_proxy_raises (pm : ProxiesManager) (choice : Nat)
    (hpm : pm.proxies = []) (m : SessionManager) (env : String → ConnectOutcome)
    (hcl : m.clients = []) (hbusy : m.busy_sessions = [])
    (hban : m.banned_sessions = [])
    (hidx : m.current_session_index < m.session_files.length) :
    (get_random_proxy [] choice pm).2 = none ∧
    get_client env none m = .error (.proxySubscriptNone, rotate_session m) := by
  constructor
  · simp [get_random_proxy, hpm]
  · unfold get_client
    have hn : 0 < m.session_files.length := Nat.lt_of_le_of_lt (Nat.zero_le _) hidx
    rw [if_neg (by rw [hban]; simp only [List.length_nil]; omega)]
    obtain ⟨n, hlen⟩ : ∃ n, m.session_files.length = n + 1 :=
      ⟨m.session_files.length - 1, by omega⟩
    rw [hlen]
    simp only [get_client_loop]
    rw [if_neg (by
      rw [rotate_session_busy, rotate_session_banned, hbusy, hban]
      simp)]
    rw [if_pos (by
      rw [rotate_session_clients, hcl]
      exact List.not_mem_nil _)]

/-- Witness for C10: empty proxy pool and a one-session manager. -/
theorem acquire_no_proxy_raises_witness :
    (get_random_proxy [] 0 (ProxiesManager.mk [])).2 = none ∧
    get_client wEnv none (SessionManager.mk ["a"] 0 [] [] [])
      = .error (.proxySubscriptNone, rotate_session (SessionManager.mk ["a"] 0 [] [] [])) :=
  acquire_no_proxy_raises (ProxiesManager.mk []) 0 rfl
    (SessionManager.mk ["a"] 0 [] [] []) wEnv rfl rfl rfl (by decide)

/-- A row of the channel_similar table (app/core/models.py ChannelSimilar):
the ordered pair of database channel ids. -/
structure ChannelSimilar where
  main_channel_id : Nat
  similar_channel_id : Nat
deriving DecidableEq, Repr

/-- ChannelRepository.add_similar_channel: select rows with both ids equal;
when one exists, return True without inserting; otherwise insert the ordered
pair and return True. -/
def add_similar_channel (db : List ChannelSimilar) (mainId similarId : Nat) :
    List ChannelSimilar × Bool :=
  if db.any fun e =>
      e.main_channel_id == mainId && e.similar_channel_id == similarId then
    (db, true)
  else (db ++ [ChannelSimilar.mk mainId similarId], true)

/-- Number of persisted rows for one ordered pair. -/
def edgeCount (db : List ChannelSimilar) (mainId similarId : Nat) : Nat :=
  (db.filter fun e =>
    e.main_channel_id == mainId && e.similar_channel_id == similarId).length

/-- C9: invoking add_similar_channel twice with the same ordered pair leaves
exactly one persisted row for that pair (the second call changes nothing),
and the stored direction is the given main-to-similar one: the count of the
reversed pair is untouched. -/
theorem add_similar_channel_idempotent (db : List ChannelSimilar) (a b : Nat)
    (hz : edgeCount db a b = 0) (hab : a ≠ b) :
    (add_similar_channel (add_similar_channel db a b).1 a b).1
      = (add_similar_channel db a b).1 ∧
    edgeCount (add_similar_channel (add_similar_channel db a b).1 a b).1 a b = 1 ∧
    edgeCount (add_similar_channel (add_similar_channel db a b).1 a b).1 b a
      = edgeCount db b a := by
  have hallnot : ∀ e ∈ db,
      ¬(e.main_channel_id == a && e.similar_channel_id == b) = true := by
    intro e he
    have hfil := List.length_eq_zero.mp hz
    intro hpred
    have : e ∈ db.filter fun e =>
        e.main_channel_id == a && e.similar_channel_id == b :=
      List.mem_filter.mpr ⟨he, hpred⟩
    rw [hfil] at this
    exact List.not_mem_nil e this
  have hany : (db.any fun e =>
      e.main_channel_id == a && e.similar_channel_id == b) = false := by
    rw [List.any_eq_false]
    exact hallnot
  have h1 : (add_similar_channel db a b).1 = db ++ [ChannelSimilar.mk a b] := by
    unfold add_similar_channel
    rw [hany]
    simp
  have hpredab : ((ChannelSimilar.mk a b).main_channel_id == a
      && (ChannelSimilar.mk a b).similar_channel_id == b) = true := by
    simp
  have hany2 : ((db ++ [ChannelSimilar.mk a b]).any fun e =>
      e.main_channel_id == a && e.similar_channel_id == b) = true := by
    rw [List.any_eq_true]
    exact ⟨ChannelSimilar.mk a b, by simp, hpredab⟩
  have h2 : (add_similar_channel (db ++ [ChannelSimilar.mk a b]) a b).1
      = db ++ [ChannelSimilar.mk a b] := by
    unfold add_similar_channel
    rw [hany2]
    simp
  refine ⟨by rw [h1, h2], ?_, ?_⟩
  · rw [h1, h2]
    unfold edgeCount
    rw [List.filter_append, List.length_append, List.length_eq_zero.mp hz]
    simp
  · rw [h1, h2]
    unfold edgeCount
    rw [List.filter_append, List.length_append]
    have : ([ChannelSimilar.mk a b].filter fun e =>
        e.main_channel_id == b && e.similar_channel_id == a) = [] := by
      simp only [List.filter, ChannelSimilar.mk.injEq]
      have : ((ChannelSimilar.mk a b).main_channel_id == b
          && (ChannelSimilar.mk a b).similar_channel_id == a) = false := by
        simp only [ChannelSimilar.mk.injEq]
        have : (a == b) = false := beq_eq_false_iff_ne.mpr hab
        simp [this]
      rw [this]
    rw [this]
    simp

/-- Witness for C9 on an empty table and the pair (1, 2). -/
theorem add_similar_channel_idempotent_witness :
    (add_similar_channel (add_similar_channel [] 1 2).1 1 2).1
      = (add_similar_channel [] 1 2).1 ∧
    edgeCount (add_similar_channel (add_similar_channel [] 1 2).1 1 2).1 1 2 = 1 ∧
    edgeCount (add_similar_channel (add_similar_channel [] 1 2).1 1 2).1 2 1
      = edgeCount [] 2 1 :=
  add_similar_channel_idempotent [] 1 2 (by decide) (by decide)

/-- Exceptions crossing the per-channel pipeline, as distinguished by
process_channel in app/services/telegram_service.py. -/
inductive PipelineExc where
  | floodWait (seconds : Nat)
  | userDeactivatedBan
  | other (message : String)
deriving DecidableEq, Repr

/-- Result of one process_channel call: the returned flag (True means the
job counts as done and is never retried, False means retry on another
session), the session marked banned if any, and the session released by the
finally arm. -/
structure ProcessOutcome where
  result : Bool
  markedBanned : Option String
  released : Option String
deriving DecidableEq, Repr

/-- TelegramCrawler.process_channel over the acquired session and the outcome
of the pipeline body (the Except carries any exception raised by a stage; all
inner returns of the body are True).  Mirrors the except arms of the source:
no client returns False; FloodWaitError returns False; UserDeactivatedBanError
marks the session banned and returns False; any other exception is logged and
returns True; the finally arm always releases an acquired session. -/
def process_channel (session : Option String) (body : Except PipelineExc Bool) :
    ProcessOutcome :=
  match session with
  | none => ⟨false, none, none⟩
  | some s =>
    match body with
    | .ok b => ⟨b, none, some s⟩
    | .error (.floodWait _) => ⟨false, none, some s⟩
    | .error .userDeactivatedBan => ⟨false, some s, some s⟩
    | .error (.other _) => ⟨true, none, some s⟩

/-- C6: with a session acquired, a pipeline exception produces the retry
outcome (False) exactly when it is the Retryable FloodWaitError or the
fatal-session UserDeactivatedBanError; every other pipeline exception is
absorbed into the terminal done outcome (True, never retried); the session is
released in every case. -/
theorem process_channel_error_classes (s : String) (e : PipelineExc) :
    ((process_channel (some s) (.error e)).result = false ↔
      (∃ n, e = .floodWait n) ∨ e = .userDeactivatedBan) ∧
    (∀ msg, (process_channel (some s) (.error (.other msg))).result = true) ∧
    (process_channel (some s) (.error e)).released = some s := by
  refine ⟨?_, fun msg => rfl, ?_⟩
  · cases e with
    | floodWait n => exact iff_of_true rfl (Or.inl ⟨n, rfl⟩)
    | userDeactivatedBan => exact iff_of_true rfl (Or.inr rfl)
    | other msg =>
      constructor
      · intro hcontr
        exact absurd hcontr (by simp [process_channel])
      · rintro (⟨n, hn⟩ | hn) <;> cases hn
  · cases e <;> rfl

/-- Witness for C6 at session a and a concrete FloodWait exception. -/
theorem process_channel_error_classes_witness :
    ((process_channel (some "a") (.error (.floodWait 5))).result = false ↔
      (∃ n, PipelineExc.floodWait 5 = .floodWait n) ∨
        PipelineExc.floodWait 5 = .userDeactivatedBan) ∧
    (∀ msg, (process_channel (some "a") (.error (.other msg))).result = true) ∧
    (process_channel (some "a") (.error (.floodWait 5))).released = some "a" :=
  process_channel_error_classes "a" (.floodWait 5)

/-- The entity attributes probed by the resolve stages. -/
structure Entity where
  title : Option String
  id : Option Nat
  participants_count : Option Nat
  verified : Bool
  date : Option String
deriving DecidableEq, Repr

/-- The channel-info dict produced by the resolve stages. -/
structure ChannelInfo where
  name : Option String
  link : Option String
  id : Option Nat
  subscribers : Option Nat
  verified : Bool
  created_at : Option String
deriving DecidableEq, Repr

/-- Result of the CheckChatInviteRequest call: a result with a chat
attribute, or a bare-title result (no chat) with an optional
participants_count attribute. -/
inductive InviteCheckResult where
  | chatResult (chat : Entity)
  | bareTitle (title : String) (participants : Option Nat)
deriving DecidableEq, Repr

/-- The fallback display name built by _extract_basic_channel_info when the
entity lacks a title. -/
def channelFallbackName (id : Option Nat) : String :=
  match id with
  | some i => s!"Channel {i}"
  | none => "Channel Unknown"

/-- TelegramCrawler._extract_basic_channel_info of the service crawler. -/
def extract_basic_channel_info (e : Entity) (channel_url : Option String) :
    ChannelInfo :=
  { name := some (match e.title with
      | some t => t
      | none => channelFallbackName e.id),
    link := channel_url,
    id := e.id,
    subscribers := e.participants_count,
    verified := e.verified,
    created_at := e.date }

/-- TelegramCrawler._process_invite_link of app/services/telegram_service.py:
FloodWait and ban errors are rethrown; a result with a chat attribute yields
the basic info and the entity; any other shape, the bare-title result
included, is logged and yields (None, None). -/
def service_process_invite_link (callResult : Except PipelineExc InviteCheckResult)
    (channel_url : String) :
    Except PipelineExc (Option ChannelInfo × Option Entity) :=
  match callResult with
  | .error (.floodWait n) => .error (.floodWait n)
  | .error .userDeactivatedBan => .error .userDeactivatedBan
  | .error (.other _) => .ok (none, none)
  | .ok (.chatResult chat) =>
    .ok (some (extract_basic_channel_info chat (some channel_url)), some chat)
  | .ok (.bareTitle _ _) => .ok (none, none)

/-- The invite branch of the legacy TelegramCrawler.get_channel_info in
app/pipelines/telegram_crawler.py: a chat result builds the record from the
chat with subscribers None; a bare-title result builds a record with the
title as name, no numeric id, and subscribers from participants_count when
present; FloodWaitError is rethrown; every other exception, the ban error
included, yields (None, None). -/
def pipeline_get_channel_info_invite (callResult : Except PipelineExc InviteCheckResult)
    (channel_url : String) :
    Except PipelineExc (Option ChannelInfo × Option Entity) :=
  match callResult with
  | .error (.floodWait n) => .error (.floodWait n)
  | .error .userDeactivatedBan => .ok (none, none)
  | .error (.other _) => .ok (none, none)
  | .ok (.chatResult chat) =>
    .ok (some { name := chat.title,
                link := some channel_url,
                id := chat.id,
                subscribers := none,
                verified := chat.verified,
                created_at := chat.date }, some chat)
  | .ok (.bareTitle t pc) =>
    .ok (some { name := some t,
                link := some channel_url,
                id := none,
                subscribers := pc,
                verified := false,
                created_at := none }, none)

/-- C8 counterexample: a bare-title invite result with a participants count
yields no record at all from the service resolver, and a record whose
subscribers field is the count (not null) from the legacy resolver. -/
theorem invite_bare_title_cex :
    service_process_invite_link (.ok (.bareTitle "T" (some 5))) "u"
      = .ok (none, none) ∧
    pipeline_get_channel_info_invite (.ok (.bareTitle "T" (some 5))) "u"
      = .ok (some ⟨some "T", some "u", none, some 5, false, none⟩, none) :=
  ⟨rfl, rfl⟩

/-- C8 amended: a bare-title invite result raises no exception in either
resolver; the service resolve stage yields no record ((None, None)), while
the legacy pipeline resolve yields a record with no numeric id whose
subscribers field is the participants_count of the result when present and
null otherwise. -/
theorem invite_bare_title_amended (t : String) (pc : Option Nat) (url : String) :
    service_process_invite_link (.ok (.bareTitle t pc)) url = .ok (none, none) ∧
    pipeline_get_channel_info_invite (.ok (.bareTitle t pc)) url
      = .ok (some ⟨some t, some url, none, pc, false, none⟩, none) :=
  ⟨rfl, rfl⟩

/-- Modelled from the spec: the telethon iter_messages call with reverse
pagination, which is external library code.  Per the interface contract it
returns, oldest first, up to limit message ids from the remote channel that
lie strictly above both the offset cursor and the min id bound when one is
given. -/
def paginateMessages (remote : List Nat) (minId : Option Nat)
    (offsetId limit : Nat) : List Nat :=
  (remote.filter fun msg =>
    decide (offsetId < msg) &&
      (match minId with
       | none => true
       | some c => decide (c < msg))).take limit

/-- TelegramCrawler.get_channel_messages: the min_id keyword is forwarded
only when truthy (a stored checkpoint of 0 or None falls back to plain
pagination). -/
def get_channel_messages (remote : List Nat) (batch_size offset_id : Nat)
    (min_id : Option Nat) : List Nat :=
  match min_id with
  | some c =>
    if c = 0 then paginateMessages remote none offset_id batch_size
    else paginateMessages remote (some c) offset_id batch_size
  | none => paginateMessages remote none offset_id batch_size

/-- ChannelRepository.save_channel_message: upsert keyed by message id (the
stored payload is irrelevant to the claims, so the table is the id set). -/
def db_upsert (db : List Nat) (id : Nat) : List Nat :=
  if id ∈ db then db else id :: db

/-- TelegramCrawler.save_channel_messages: upsert every message of a batch. -/
def save_batch (db : List Nat) (msgs : List Nat) : List Nat :=
  msgs.foldl db_upsert db

/-- ChannelRepository.get_latest_message_id: the maximum stored message id. -/
def get_latest_message_id (db : List Nat) : Option Nat :=
  db.max?

/-- The mutable state of the _process_channel_messages loop: the offset
cursor, the ids already processed this run, the message table, and the ids
passed to save_channel_message in order. -/
structure MsgRunState where
  offset_id : Nat
  processed : List Nat
  db : List Nat
  saved : List Nat
deriving DecidableEq, Repr

/-- The while-True body of TelegramCrawler._process_channel_messages: fetch a
batch above (offset, checkpoint), stop on an empty batch or no unseen ids,
save the new ids, then stop when the maximum id of the batch does not advance
the cursor or the batch is short; fuel bounds the iteration count. -/
def process_messages_loop (remote : List Nat) (bs : Nat) (latest : Option Nat) :
    Nat → MsgRunState → MsgRunState
  | 0, st => st
  | fuel + 1, st =>
    let batch := get_channel_messages remote bs st.offset_id latest
    if batch.isEmpty then st
    else
      let newMsgs := batch.filter fun msg => msg ∉ st.processed
      if newMsgs.isEmpty then st
      else
        let st' : MsgRunState :=
          { offset_id := st.offset_id,
            processed := st.processed ++ newMsgs,
            db := save_batch st.db newMsgs,
            saved := st.saved ++ newMsgs }
        let maxId := batch.foldl max 0
        if maxId = st.offset_id ∨ batch.length < bs then st'
        else process_messages_loop remote bs latest fuel { st' with offset_id := maxId }

/-- TelegramCrawler._process_channel_messages: read the stored checkpoint
once, then run the batched loop from offset 0 with an empty processed set. -/
def process_channel_messages (remote : List Nat) (bs : Nat) (db : List Nat)
    (fuel : Nat) : MsgRunState :=
  process_messages_loop remote bs (get_latest_message_id db) fuel
    ⟨0, [], db, []⟩

theorem get_channel_messages_some (remote : List Nat) (bs offset C : Nat)
    (hC : C ≠ 0) :
    get_channel_messages remote bs offset (some C)
      = paginateMessages remote (some C) offset bs := by
  simp only [get_channel_messages]
  rw [if_neg hC]

theorem save_batch_subset (msgs : List Nat) :
    ∀ (db : List Nat), ∀ x ∈ db, x ∈ save_batch db msgs := by
  induction msgs with
  | nil => intro db x hx; exact hx
  | cons m ms ih =>
    intro db x hx
    have hx1 : x ∈ db_upsert db m := by
      unfold db_upsert
      split
      · exact hx
      · exact List.mem_cons_of_mem m hx
    exact ih (db_upsert db m) x hx1

theorem save_batch_mem (msgs : List Nat) :
    ∀ (db : List Nat), ∀ x ∈ save_batch db msgs, x ∈ db ∨ x ∈ msgs := by
  induction msgs with
  | nil => intro db x hx; exact Or.inl hx
  | cons m ms ih =>
    intro db x hx
    rcases ih (db_upsert db m) x hx with hx1 | hx1
    · unfold db_upsert at hx1
      split at hx1
      · exact Or.inl hx1
      · rcases List.mem_cons.mp hx1 with rfl | hx2
        · exact Or.inr (List.mem_cons_self _ _)
        · exact Or.inl hx2
    · exact Or.inr (List.mem_cons_of_mem _ hx1)

/-- Every message the loop saves lies strictly above a nonzero checkpoint,
and the table only grows. -/
theorem process_messages_loop_invariant (remote : List Nat) (bs : Nat)
    (C : Nat) (hC : 0 < C) :
    ∀ (fuel : Nat) (st : MsgRunState),
      (∀ id ∈ (process_messages_loop remote bs (some C) fuel st).saved,
        id ∈ st.saved ∨ C < id) ∧
      (∀ x ∈ st.db, x ∈ (process_messages_loop remote bs (some C) fuel st).db) := by
  intro fuel
  induction fuel with
  | zero =>
    intro st
    exact ⟨fun id hid => Or.inl hid, fun x hx => hx⟩
  | succ n ih =>
    intro st
    simp only [process_messages_loop]
    have hbatch : ∀ id ∈ get_channel_messages remote bs st.offset_id (some C),
        C < id := by
      intro id hid
      rw [get_channel_messages_some remote bs st.offset_id C (by omega)] at hid
      unfold paginateMessages at hid
      have hid2 := List.mem_of_mem_take hid
      have := List.mem_filter.mp hid2
      have hcond := this.2
      simp only [Bool.and_eq_true, decide_eq_true_eq] at hcond
      exact hcond.2
    split
    · exact ⟨fun id hid => Or.inl hid, fun x hx => hx⟩
    · split
      · exact ⟨fun id hid => Or.inl hid, fun x hx => hx⟩
      · rename_i hne hnonew
        split
        · constructor
          · intro id hid
            simp only at hid
            rcases List.mem_append.mp hid with hid | hid
            · exact Or.inl hid
            · exact Or.inr (hbatch id (List.mem_of_mem_filter hid))
          · intro x hx
            exact save_batch_subset _ st.db x hx
        · constructor
          · intro id hid
            rcases (ih _).1 id hid with hid1 | hid1
            · simp only at hid1
              rcases List.mem_append.mp hid1 with hid2 | hid2
              · exact Or.inl hid2
              · exact Or.inr (hbatch id (List.mem_of_mem_filter hid2))
            · exact Or.inr hid1
          · intro x hx
            exact (ih _).2 x (save_batch_subset _ st.db x hx)

/-- With no remote id above the checkpoint the first batch is empty and the
loop stops immediately. -/
theorem process_messages_loop_no_new (remote : List Nat) (bs : Nat) (C : Nat)
    (hC : 0 < C) (hno : ∀ msg ∈ remote, msg ≤ C) (fuel : Nat)
    (st : MsgRunState) :
    process_messages_loop remote bs (some C) fuel st = st := by
  cases fuel with
  | zero => rfl
  | succ n =>
    simp only [process_messages_loop]
    rw [if_pos ?hempty]
    case hempty =>
      rw [get_channel_messages_some remote bs st.offset_id C (by omega)]
      unfold paginateMessages
      rw [List.isEmpty_iff, List.take_eq_nil_iff]
      right
      rw [List.filter_eq_nil_iff]
      intro msg hmsg
      simp only [Bool.and_eq_true, decide_eq_true_eq, not_and]
      intro _
      have := hno msg hmsg
      intro hcontr
      omega

/-- C5: for a channel whose stored checkpoint is C (get_latest_message_id
returns some C; message ids are positive), a _process_channel_messages run
saves only ids strictly greater than C, the checkpoint after the run is at
least C, and a second run with no new remote messages (every remote id at
most C) performs zero save calls and leaves the table, hence the checkpoint,
unchanged. -/
theorem checkpoint_pagination (remote db : List Nat) (bs fuel C : Nat)
    (hC : get_latest_message_id db = some C) (hCpos : 0 < C) :
    (∀ id ∈ (process_channel_messages remote bs db fuel).saved, C < id) ∧
    (∃ C', get_latest_message_id (process_channel_messages remote bs db fuel).db
        = some C' ∧ C ≤ C') ∧
    ((∀ msg ∈ remote, msg ≤ C) →
      (process_channel_messages remote bs db fuel).saved = [] ∧
      (process_channel_messages remote bs db fuel).db = db) := by
  have hrun : process_channel_messages remote bs db fuel
      = process_messages_loop remote bs (some C) fuel ⟨0, [], db, []⟩ := by
    unfold process_channel_messages
    rw [hC]
  obtain ⟨hCmem, -⟩ := List.max?_eq_some_iff'.mp hC
  refine ⟨?_, ?_, ?_⟩
  · intro id hid
    rw [hrun] at hid
    rcases (process_messages_loop_invariant remote bs C hCpos fuel
        ⟨0, [], db, []⟩).1 id hid with hid1 | hid1
    · exact absurd hid1 (List.not_mem_nil id)
    · exact hid1
  · rw [hrun]
    have hmem : C ∈ (process_messages_loop remote bs (some C) fuel
        ⟨0, [], db, []⟩).db :=
      (process_messages_loop_invariant remote bs C hCpos fuel
        ⟨0, [], db, []⟩).2 C hCmem
    obtain ⟨C', hC'⟩ := Option.isSome_iff_exists.mp (List.isSome_max?_of_mem hmem)
    obtain ⟨-, hub⟩ := List.max?_eq_some_iff'.mp hC'
    exact ⟨C', hC', hub C hmem⟩
  · intro hno
    rw [hrun, process_messages_loop_no_new remote bs C hCpos hno fuel _]
    exact ⟨rfl, rfl⟩

/-- Witness for C5: checkpoint 3 over a table containing ids 1..3 and a
remote channel holding ids 1..5. -/
theorem checkpoint_pagination_witness :
    (∀ id ∈ (process_channel_messages [1, 2, 3, 4, 5] 100 [1, 2, 3] 10).saved,
      3 < id) ∧
    (∃ C', get_latest_message_id
        (process_channel_messages [1, 2, 3, 4, 5] 100 [1, 2, 3] 10).db
        = some C' ∧ 3 ≤ C') ∧
    ((∀ msg ∈ ([1, 2, 3, 4, 5] : List Nat), msg ≤ 3) →
      (process_channel_messages [1, 2, 3, 4, 5] 100 [1, 2, 3] 10).saved = [] ∧
      (process_channel_messages [1, 2, 3, 4, 5] 100 [1, 2, 3] 10).db = [1, 2, 3]) :=
  checkpoint_pagination [1, 2, 3, 4, 5] [1, 2, 3] 100 10 3 (by decide) (by decide)

/-- Witness for the amended C8 at a concrete bare-title result. -/
theorem invite_bare_title_amended_witness :
    service_process_invite_link (.ok (.bareTitle "T" none)) "u" = .ok (none, none) ∧
    pipeline_get_channel_info_invite (.ok (.bareTitle "T" none)) "u"
      = .ok (some ⟨some "T", some "u", none, none, false, none⟩, none) :=
  invite_bare_title_amended "T" none "u"

/-- If the available session count is zero or less (every session file
banned), get_client returns None immediately, so process_channel returns
False: no job can complete once the pool is exhausted. -/
theorem get_client_all_banned (env : String → ConnectOutcome)
    (proxy : Option Proxy) (m : SessionManager)
    (h : get_available_session_count m ≤ 0) :
    get_client env proxy m = .ok (m, none) := by
  unfold get_available_session_count at h
  unfold get_client
  rw [if_pos (by omega)]

/-- Witness: both sessions banned gives available count 0 and a None client. -/
theorem get_client_all_banned_witness :
    get_available_session_count (SessionManager.mk ["a"] 0 ["a"] [] ["a"]) ≤ 0 ∧
    get_client wEnv (some wP) (SessionManager.mk ["a"] 0 ["a"] [] ["a"])
      = .ok (SessionManager.mk ["a"] 0 ["a"] [] ["a"], none) :=
  ⟨by decide, get_client_all_banned wEnv (some wP) _ (by decide)⟩

/-- State of one worker coroutine in TelegramCrawler.worker. -/
inductive WState where
  | atTop
  | processing (job : Nat)
  | afterFail (job : Nat)
  | exited
deriving DecidableEq, Repr

/-- A scheduler configuration: the queue contents, the unfinished-task
counter of the asyncio queue (incremented by put, decremented by task_done,
and awaited by join), the available session count, and the worker states. -/
structure SchedState where
  queue : List Nat
  unfinished : Nat
  avail : Nat
  workers : List WState
deriving DecidableEq, Repr

/-- One cooperative step of process_channels_by_category worker execution,
following TelegramCrawler.worker and process_channel:
exitNoSessions is the loop-top capacity check breaking out; dequeue takes the
queue head when capacity remains; timeout is the 30-unit wait expiring on an
empty queue; processDone is a successful job (task_done decrements the
counter; success needs an acquirable session, see get_client_all_banned);
processFail is process_channel returning False without a ban (rate limit, or
no client acquired); processFailBan additionally marks the session banned;
requeue is the no-capacity retry path (put_nowait then task_done: the counter
is unchanged); retry reruns the job while capacity remains. -/
inductive SchedStep : SchedState → SchedState → Prop where
  | exitNoSessions (c : SchedState) (i : Nat)
      (h : c.workers.get? i = some .atTop) (hav : c.avail = 0) :
      SchedStep c { c with workers := c.workers.set i .exited }
  | dequeue (c : SchedState) (i j : Nat) (q : List Nat)
      (h : c.workers.get? i = some .atTop) (hav : 0 < c.avail)
      (hq : c.queue = j :: q) :
      SchedStep c { c with queue := q,
                           workers := c.workers.set i (.processing j) }
  | timeout (c : SchedState) (i : Nat)
      (h : c.workers.get? i = some .atTop) (hav : 0 < c.avail)
      (hq : c.queue = []) :
      SchedStep c { c with workers := c.workers.set i .exited }
  | processDone (c : SchedState) (i j : Nat)
      (h : c.workers.get? i = some (.processing j)) (hav : 0 < c.avail) :
      SchedStep c { c with unfinished := c.unfinished - 1,
                           workers := c.workers.set i .atTop }
  | processFail (c : SchedState) (i j : Nat)
      (h : c.workers.get? i = some (.processing j)) :
      SchedStep c { c with workers := c.workers.set i (.afterFail j) }
  | processFailBan (c : SchedState) (i j : Nat)
      (h : c.workers.get? i = some (.processing j)) :
      SchedStep c { c with avail := c.avail - 1,
                           workers := c.workers.set i (.afterFail j) }
  | requeue (c : SchedState) (i j : Nat)
      (h : c.workers.get? i = some (.afterFail j)) (hav : c.avail = 0) :
      SchedStep c { c with queue := c.queue ++ [j],
                           workers := c.workers.set i .atTop }
  | retry (c : SchedState) (i j : Nat)
      (h : c.workers.get? i = some (.afterFail j)) (hav : 0 < c.avail) :
      SchedStep c { c with workers := c.workers.set i (.processing j) }

/-- A worker holds a dequeued, not yet task_done job in these states. -/
def isInflight : WState → Bool
  | .processing _ => true
  | .afterFail _ => true
  | _ => false

/-- Number of workers holding a job. -/
def inflight (ws : List WState) : Nat :=
  ws.countP isInflight

/-- Queue bookkeeping invariant: the unfinished counter equals queued items
plus in-flight items (each queued item was put and not yet task_done; each
in-flight item was dequeued and its task_done has not run yet). -/
def QueueInv (c : SchedState) : Prop :=
  c.unfinished = c.queue.length + inflight c.workers

/-- Steps remaining in a worker state before it must exit when no session is
available. -/
def wRank : WState → Nat
  | .atTop => 1
  | .processing _ => 3
  | .afterFail _ => 2
  | .exited => 0

/-- Total remaining steps of the pool. -/
def schedMeasure (c : SchedState) : Nat :=
  (c.workers.map wRank).sum

theorem countP_set_eq (p : WState → Bool) :
    ∀ (ws : List WState) (i : Nat) (w w' : WState), ws.get? i = some w →
      (ws.set i w').countP p + (if p w then 1 else 0)
        = ws.countP p + (if p w' then 1 else 0) := by
  intro ws
  induction ws with
  | nil => intro i w w' h; cases h
  | cons a as ih =>
    intro i w w' h
    cases i with
    | zero =>
      injection h with h
      subst h
      simp only [List.set_cons_zero, List.countP_cons]
      omega
    | succ i =>
      simp only [List.get?_cons_succ] at h
      simp only [List.set_cons_succ, List.countP_cons]
      have := ih i w w' h
      omega

theorem sum_map_set_eq (f : WState → Nat) :
    ∀ (ws : List WState) (i : Nat) (w w' : WState), ws.get? i = some w →
      ((ws.set i w').map f).sum + f w = (ws.map f).sum + f w' := by
  intro ws
  induction ws with
  | nil => intro i w w' h; cases h
  | cons a as ih =>
    intro i w w' h
    cases i with
    | zero =>
      injection h with h
      subst h
      simp only [List.set_cons_zero, List.map_cons, List.sum_cons]
      omega
    | succ i =>
      simp only [List.get?_cons_succ] at h
      simp only [List.set_cons_succ, List.map_cons, List.sum_cons]
      have := ih i w w' h
      omega

/-- Every step preserves the queue bookkeeping; once no session is available,
every step keeps the count at zero, never shortens the queue, and strictly
decreases the measure. -/
theorem schedStep_facts (c c' : SchedState) (h : SchedStep c c') :
    (QueueInv c → QueueInv c') ∧
    (c.avail = 0 → c'.avail = 0 ∧ c.queue.length ≤ c'.queue.length ∧
      schedMeasure c' < schedMeasure c) := by
  cases h with
  | exitNoSessions i h hav =>
    have hcount := countP_set_eq isInflight c.workers i _ WState.exited h
    have hsum := sum_map_set_eq wRank c.workers i _ WState.exited h
    simp only [isInflight, wRank, Bool.false_eq_true, reduceIte, if_false] at hcount hsum
    constructor
    · intro hinv
      unfold QueueInv at hinv ⊢
      unfold inflight at hinv ⊢
      dsimp only
      omega
    · intro h0
      refine ⟨h0, le_refl _, ?_⟩
      unfold schedMeasure
      dsimp only
      omega
  | dequeue i j q h hav hq =>
    have hcount := countP_set_eq isInflight c.workers i _ (WState.processing j) h
    simp only [isInflight, Bool.false_eq_true, reduceIte, if_false] at hcount
    constructor
    · intro hinv
      unfold QueueInv at hinv ⊢
      unfold inflight at hinv ⊢
      dsimp only
      rw [hq] at hinv
      simp only [List.length_cons] at hinv
      omega
    · intro h0
      omega
  | timeout i h hav hq =>
    have hcount := countP_set_eq isInflight c.workers i _ WState.exited h
    simp only [isInflight, Bool.false_eq_true, reduceIte, if_false] at hcount
    constructor
    · intro hinv
      unfold QueueInv at hinv ⊢
      unfold inflight at hinv ⊢
      dsimp only
      omega
    · intro h0
      omega
  | processDone i j h hav =>
    have hcount := countP_set_eq isInflight c.workers i _ WState.atTop h
    simp only [isInflight, Bool.false_eq_true, reduceIte, if_false] at hcount
    constructor
    · intro hinv
      unfold QueueInv at hinv ⊢
      unfold inflight at hinv ⊢
      dsimp only
      omega
    · intro h0
      omega
  | processFail i j h =>
    have hcount := countP_set_eq isInflight c.workers i _ (WState.afterFail j) h
    have hsum := sum_map_set_eq wRank c.workers i _ (WState.afterFail j) h
    simp only [isInflight, wRank, Bool.false_eq_true, reduceIte, if_false] at hcount hsum
    constructor
    · intro hinv
      unfold QueueInv at hinv ⊢
      unfold inflight at hinv ⊢
      dsimp only
      omega
    · intro h0
      refine ⟨h0, le_refl _, ?_⟩
      unfold schedMeasure
      dsimp only
      omega
  | processFailBan i j h =>
    have hcount := countP_set_eq isInflight c.workers i _ (WState.afterFail j) h
    have hsum := sum_map_set_eq wRank c.workers i _ (WState.afterFail j) h
    simp only [isInflight, wRank, Bool.false_eq_true, reduceIte, if_false] at hcount hsum
    constructor
    · intro hinv
      unfold QueueInv at hinv ⊢
      unfold inflight at hinv ⊢
      dsimp only
      omega
    · intro h0
      refine ⟨by show c.avail - 1 = 0; omega, le_refl _, ?_⟩
      unfold schedMeasure
      dsimp only
      omega
  | requeue i j h hav =>
    have hcount := countP_set_eq isInflight c.workers i _ WState.atTop h
    have hsum := sum_map_set_eq wRank c.workers i _ WState.atTop h
    simp only [isInflight, wRank, Bool.false_eq_true, reduceIte, if_false] at hcount hsum
    constructor
    · intro hinv
      unfold QueueInv at hinv ⊢
      unfold inflight at hinv ⊢
      dsimp only
      simp only [List.length_append, List.length_cons, List.length_nil]
      omega
    · intro h0
      refine ⟨h0, by simp, ?_⟩
      unfold schedMeasure
      dsimp only
      omega
  | retry i j h hav =>
    have hcount := countP_set_eq isInflight c.workers i _ (WState.processing j) h
    simp only [isInflight, Bool.false_eq_true, reduceIte, if_false] at hcount
    constructor
    · intro hinv
      unfold QueueInv at hinv ⊢
      unfold inflight at hinv ⊢
      dsimp only
      omega
    · intro h0
      omega

/-- Reachability of the worker pool under cooperative steps. -/
def SchedReach : SchedState → SchedState → Prop :=
  Relation.ReflTransGen SchedStep

theorem schedReach_invariant (c0 : SchedState) (hav : c0.avail = 0)
    (hinv : QueueInv c0) :
    ∀ c, SchedReach c0 c →
      QueueInv c ∧ c.avail = 0 ∧ c0.queue.length ≤ c.queue.length := by
  intro c h
  induction h with
  | refl => exact ⟨hinv, hav, le_refl _⟩
  | tail hab hstep ih =>
    obtain ⟨hq1, ha1, hlen1⟩ := ih
    obtain ⟨hfa, hfb⟩ := schedStep_facts _ _ hstep
    have hres := hfb ha1
    exact ⟨hfa hq1, hres.1, le_trans hlen1 hres.2.1⟩

/-- When no session is available, a non-exited worker always has a next
step, so a stuck pool has every worker exited. -/
theorem sched_stuck_all_exited (c : SchedState) (hav : c.avail = 0)
    (hstuck : ∀ c', ¬ SchedStep c c') : ∀ w ∈ c.workers, w = WState.exited := by
  intro w hw
  obtain ⟨i, hi⟩ := List.mem_iff_get?.mp hw
  cases w with
  | atTop => exact absurd (SchedStep.exitNoSessions c i hi hav) (hstuck _)
  | processing j => exact absurd (SchedStep.processFail c i j hi) (hstuck _)
  | afterFail j => exact absurd (SchedStep.requeue c i j hi hav) (hstuck _)
  | exited => rfl

/-- C2 as the code behaves: from any configuration where every session is
banned (available count 0), the queue bookkeeping holds and jobs are still
queued, every step strictly decreases the pool measure (so each worker
terminates after finitely many steps), a stuck configuration has every
worker exited, the available count stays 0 and the queued jobs are never
picked up; yet the unfinished-task counter stays positive in every reachable
configuration, so channel_queue.join() never completes and
process_channels_by_category, which awaits it, never returns. -/
theorem all_banned_workers_exit_join_hangs (c0 : SchedState)
    (hav : c0.avail = 0) (hinv : QueueInv c0) (hq : 0 < c0.queue.length) :
    (∀ c, SchedReach c0 c →
      0 < c.unfinished ∧ c.avail = 0 ∧ 0 < c.queue.length) ∧
    (∀ c, SchedReach c0 c → (∀ c', ¬ SchedStep c c') →
      ∀ w ∈ c.workers, w = WState.exited) ∧
    (∀ c c', SchedReach c0 c → SchedStep c c' →
      schedMeasure c' < schedMeasure c) := by
  have key := schedReach_invariant c0 hav hinv
  refine ⟨?_, ?_, ?_⟩
  · intro c hc
    obtain ⟨hq1, ha1, hlen1⟩ := key c hc
    refine ⟨?_, ha1, by omega⟩
    unfold QueueInv at hq1
    omega
  · intro c hc hstuck
    exact sched_stuck_all_exited c (key c hc).2.1 hstuck
  · intro c c' hc hstep
    exact ((schedStep_facts c c' hstep).2 (key c hc).2.1).2.2

/-- Witness for the C2 analysis: one worker at the loop top, one queued job,
unfinished counter 1, no available session. -/
theorem all_banned_workers_exit_join_hangs_witness :
    0 < (SchedState.mk [7] 1 0 [WState.atTop]).unfinished ∧
    (SchedState.mk [7] 1 0 [WState.atTop]).avail = 0 ∧
    0 < (SchedState.mk [7] 1 0 [WState.atTop]).queue.length :=
  (all_banned_workers_exit_join_hangs (SchedState.mk [7] 1 0 [WState.atTop])
      rfl rfl (by decide)).1 _ Relation.ReflTransGen.refl

/-- Events of one get_client call in program order: taking and dropping the
pool asyncio.Lock, and the per-slot startup delay, connect and authorization
calls. -/
inductive PoolEv where
  | lockAcquire
  | sleepDelay (name : String)
  | connect (name : String)
  | authCheck (name : String)
  | lockRelease
deriving DecidableEq, Repr

/-- Events emitted by the body of the scan loop: only fresh slots sleep,
connect and authorize; skipped and cached slots emit nothing; the proxy
subscript raise happens after the sleep and before any connect. -/
def get_client_loop_events (env : String → ConnectOutcome) (proxy : Option Proxy) :
    Nat → SessionManager → List PoolEv
  | 0, _ => []
  | fuel + 1, m =>
    let session_name := m.session_files.getD m.current_session_index ""
    let m1 := rotate_session m
    if session_name ∈ m1.busy_sessions ∨ session_name ∈ m1.banned_sessions then
      get_client_loop_events env proxy fuel m1
    else if session_name ∉ m1.clients then
      match proxy with
      | none => [.sleepDelay session_name]
      | some _ =>
        let m2 := { m1 with clients := setAdd session_name m1.clients }
        match env session_name with
        | .connectFail =>
          [.sleepDelay session_name, .connect session_name]
            ++ get_client_loop_events env proxy fuel m2
        | .notAuthorized =>
          [.sleepDelay session_name, .connect session_name,
            .authCheck session_name]
            ++ get_client_loop_events env proxy fuel m2
        | .ok =>
          [.sleepDelay session_name, .connect session_name,
            .authCheck session_name]
    else
      []

/-- The event trace of one get_client call: the async-with of the pool lock
wraps the entire body, so the trace is lockAcquire, the loop events, then
lockRelease (released also on the raise path by the context manager). -/
def get_client_events (env : String → ConnectOutcome) (proxy : Option Proxy)
    (m : SessionManager) : List PoolEv :=
  if m.session_files.length ≤ m.banned_sessions.length then
    [.lockAcquire, .lockRelease]
  else
    .lockAcquire ::
      (get_client_loop_events env proxy m.session_files.length m
        ++ [.lockRelease])

/-- The lock is held at trace position i when more lockAcquire than
lockRelease events strictly precede it. -/
def lockHeldAt (tr : List PoolEv) (i : Nat) : Prop :=
  (tr.take i).countP (fun e => e == PoolEv.lockRelease)
    < (tr.take i).countP (fun e => e == PoolEv.lockAcquire)

theorem get_client_loop_events_no_lock (env : String → ConnectOutcome)
    (proxy : Option Proxy) :
    ∀ (fuel : Nat) (m : SessionManager),
      ∀ e ∈ get_client_loop_events env proxy fuel m,
        e ≠ PoolEv.lockAcquire ∧ e ≠ PoolEv.lockRelease := by
  intro fuel
  induction fuel with
  | zero =>
    intro m e he
    exact absurd he (List.not_mem_nil e)
  | succ n ih =>
    intro m e he
    simp only [get_client_loop_events] at he
    split at he
    · exact ih _ e he
    · split at he
      · split at he
        · rcases List.mem_singleton.mp he with rfl
          exact ⟨fun hc => PoolEv.noConfusion hc, fun hc => PoolEv.noConfusion hc⟩
        · split at he
          · rcases List.mem_append.mp he with he | he
            · rcases List.mem_cons.mp he with rfl | he
              · exact ⟨fun hc => PoolEv.noConfusion hc, fun hc => PoolEv.noConfusion hc⟩
              · rcases List.mem_singleton.mp he with rfl
                exact ⟨fun hc => PoolEv.noConfusion hc, fun hc => PoolEv.noConfusion hc⟩
            · exact ih _ e he
          · rcases List.mem_append.mp he with he | he
            · rcases List.mem_cons.mp he with rfl | he
              · exact ⟨fun hc => PoolEv.noConfusion hc, fun hc => PoolEv.noConfusion hc⟩
              · rcases List.mem_cons.mp he with rfl | he
                · exact ⟨fun hc => PoolEv.noConfusion hc, fun hc => PoolEv.noConfusion hc⟩
                · rcases List.mem_singleton.mp he with rfl
                  exact ⟨fun hc => PoolEv.noConfusion hc, fun hc => PoolEv.noConfusion hc⟩
            · exact ih _ e he
          · rcases List.mem_cons.mp he with rfl | he
            · exact ⟨fun hc => PoolEv.noConfusion hc, fun hc => PoolEv.noConfusion hc⟩
            · rcases List.mem_cons.mp he with rfl | he
              · exact ⟨fun hc => PoolEv.noConfusion hc, fun hc => PoolEv.noConfusion hc⟩
              · rcases List.mem_singleton.mp he with rfl
                exact ⟨fun hc => PoolEv.noConfusion hc, fun hc => PoolEv.noConfusion hc⟩
      · exact absurd he (List.not_mem_nil e)

/-- C7 amended: the pool lock is held across every connect call of
get_client: any connect event in the trace of an acquire sits strictly
between the lockAcquire and the lockRelease of that same call, so the whole
acquire, its connect and authorization I-O included, runs inside the
critical section and acquires are fully serialized. -/
theorem connect_under_lock (env : String → ConnectOutcome) (proxy : Option Proxy)
    (m : SessionManager) (i : Nat) (name : String)
    (h : (get_client_events env proxy m).get? i = some (PoolEv.connect name)) :
    lockHeldAt (get_client_events env proxy m) i := by
  unfold get_client_events at h ⊢
  by_cases hle : m.session_files.length ≤ m.banned_sessions.length
  · rw [if_pos hle] at h
    match i, h with
    | 0, h => simp at h
    | 1, h => simp at h
    | n + 2, h => simp at h
  · rw [if_neg hle] at h ⊢
    cases i with
    | zero => simp at h
    | succ k =>
      rw [List.get?_cons_succ] at h
      have hnolock := get_client_loop_events_no_lock env proxy
        m.session_files.length m
      have hk : k < (get_client_loop_events env proxy
          m.session_files.length m).length := by
        by_contra hge
        push_neg at hge
        rw [List.get?_append_right hge] at h
        rcases hkb : k - (get_client_loop_events env proxy
            m.session_files.length m).length with _ | n2
        · rw [hkb] at h
          simp at h
        · rw [hkb] at h
          simp at h
      unfold lockHeldAt
      rw [List.take_succ_cons, List.take_append_of_le_length (le_of_lt hk)]
      rw [List.countP_cons, List.countP_cons]
      have hz : ∀ p : PoolEv → Bool,
          (∀ e ∈ get_client_loop_events env proxy m.session_files.length m,
            p e = false) →
          ((get_client_loop_events env proxy m.session_files.length m).take k).countP p
            = 0 := by
        intro p hp
        rw [List.countP_eq_zero]
        intro e he
        rw [hp e (List.mem_of_mem_take he)]
        exact Bool.false_ne_true
      rw [hz _ (fun e he => by
          have := (hnolock e he).2
          simpa using this),
        hz _ (fun e he => by
          have := (hnolock e he).1
          simpa using this)]
      simp

/-- C7 counterexample: a single fresh slot that connects successfully has
its connect event inside the critical section of the very acquire call: the
lock is still held when the connect network call runs, refuting that the
lock is never held across connect I-O. -/
theorem lock_over_connect_cex :
    (get_client_events wEnv (some wP) (SessionManager.mk ["a"] 0 [] [] [])).get? 2
      = some (PoolEv.connect "a") ∧
    lockHeldAt (get_client_events wEnv (some wP)
      (SessionManager.mk ["a"] 0 [] [] [])) 2 := by
  constructor
  · rfl
  · unfold lockHeldAt
    decide

/-- Witness instantiating the amended C7 at the concrete one-slot pool. -/
theorem connect_under_lock_witness :
    lockHeldAt (get_client_events wEnv (some wP)
      (SessionManager.mk ["a"] 0 [] [] [])) 2 :=
  connect_under_lock wEnv (some wP) (SessionManager.mk ["a"] 0 [] [] []) 2 "a" rfl

end Crawler
